import Mathlib

/-!
Verification development for the FwUpdateLibs repository.

The definitions below are shallow embeddings of the C sources:
  - src/updateserver/transfer.c   (multi packet transport layer)
  - src/updateserver/server.c     (request dispatcher, used abstractly)
  - src/fragmentstore/fragmentstore.c (fragment area and last-fragment search)
  - src/fragmentstore/command.c   (command area: install command and state words)

Machine integers are modelled as Nat; size_t subtraction that can wrap is
made explicit where it matters.  Bytes are Nat values; flash memory is a
function from addresses to bytes with NOR write semantics (write clears
bits: new = old AND data) and sector erase restoring the configured erase
value, per the flash contract of the spec and the imitation_flash test
double.  Injected function pointers (flash Reader, validators, CRC32, the
update server) become explicit function arguments; a flash read that can
fail (device busy) is an Option argument.
-/

namespace FwUpdate

/-! ## Protocol constants (src/updateserver/include/updateserver/protocol.h) -/

def TRANSFER_SINGLE_PACKET : Nat := 0x00
def TRANSFER_MULTI_PACKET_INIT : Nat := 0x01
def TRANSFER_MULTI_PACKET_TRANSFER : Nat := 0x02
def TRANSFER_MULTI_PACKET_END : Nat := 0x03

def PROTOCOL_ACK_OK : Nat := 0x00
def PROTOCOL_NACK_REQUEST_OUT_OF_RANGE : Nat := 0xE0
def PROTOCOL_NACK_INVALID_REQUEST : Nat := 0xE1
def PROTOCOL_NACK_BUSY_REPEAT_REQUEST : Nat := 0xE2
def PROTOCOL_NACK_REQUEST_FAILED : Nat := 0xE3
def PROTOCOL_NACK_INTERNAL_ERROR : Nat := 0xE4

/-! ## Transfer layer (src/updateserver/transfer.c)

The TransferBuffer_t working buffer `buf` is modelled as the list of the
bytes assembled so far; the C code never reads `buf` beyond `msgSize`.
`US_ProcessRequest` is abstracted as an injected function from the request
bytes and the available response space to the response bytes (its C return
value is the length of that list).  To make the server invocations of one
`TRANSFER_Process` call observable, the result carries the list of request
byte streams passed to the server during the call. -/

inductive TransferState where
  | idle
  | rx
  deriving DecidableEq, Repr

structure TransferBuffer where
  buf : List Nat
  bufSize : Nat
  msgSize : Nat
  transferSize : Nat
  state : TransferState
  deriving DecidableEq, Repr

/-- Result of one TRANSFER_Process call: the updated buffer state, the
returned size, the response bytes left in the packet buffer (first
`resSize` bytes), and the requests passed to US_ProcessRequest. -/
structure ProcessResult where
  tb : TransferBuffer
  resSize : Nat
  response : List Nat
  calls : List (List Nat)
  deriving DecidableEq, Repr

/-- TransferResponse of transfer.c: a three byte single packet frame. -/
def TransferResponse (code : Nat) : List Nat :=
  [TRANSFER_SINGLE_PACKET, 0, code]

/-- DecodeU32Be of transfer.c. -/
def DecodeU32Be (b0 b1 b2 b3 : Nat) : Nat :=
  (b0 <<< 24) + (b1 <<< 16) + (b2 <<< 8) + b3

/-- HandleSinglePacket of transfer.c.  The request is the packet without
its first byte; the response keeps packet byte 0 (already 0x00). -/
def HandleSinglePacket (us : List Nat → Nat → List Nat) (tb : TransferBuffer)
    (packet : List Nat) (maxPacketSize : Nat) : ProcessResult :=
  let req := packet.drop 1
  let res := us req (maxPacketSize - 1)
  let tb2 : TransferBuffer :=
    { tb with state := .idle, msgSize := packet.length - 1,
              transferSize := 0, buf := req }
  { tb := tb2,
    resSize := 1 + res.length,
    response := TRANSFER_SINGLE_PACKET :: res,
    calls := [req] }

/-- HandleTransferStart of transfer.c. -/
def HandleTransferStart (tb : TransferBuffer) (packet : List Nat) :
    ProcessResult :=
  if packet.length ≠ 5 then
    { tb := tb, resSize := 3,
      response := TransferResponse PROTOCOL_NACK_INVALID_REQUEST, calls := [] }
  else
    let transferSize := DecodeU32Be (packet.getD 1 0) (packet.getD 2 0)
      (packet.getD 3 0) (packet.getD 4 0)
    if transferSize > tb.bufSize then
      { tb := tb, resSize := 3,
        response := TransferResponse PROTOCOL_NACK_REQUEST_OUT_OF_RANGE,
        calls := [] }
    else
      let tb2 : TransferBuffer :=
        { tb with state := .rx, msgSize := 0, transferSize := transferSize }
      { tb := tb2,
        resSize := 3, response := TransferResponse PROTOCOL_ACK_OK,
        calls := [] }

/-- HandleTransferData of transfer.c. -/
def HandleTransferData (tb : TransferBuffer) (packet : List Nat) :
    ProcessResult :=
  if tb.state ≠ .rx then
    { tb := tb, resSize := 3,
      response := TransferResponse PROTOCOL_NACK_REQUEST_FAILED, calls := [] }
  else
    let dataSize := packet.length - 1
    let spaceRemaining := tb.bufSize - tb.msgSize
    if dataSize > spaceRemaining then
      { tb := tb, resSize := 3,
        response := TransferResponse PROTOCOL_NACK_REQUEST_OUT_OF_RANGE,
        calls := [] }
    else if tb.msgSize + dataSize > tb.transferSize then
      { tb := tb, resSize := 3,
        response := TransferResponse PROTOCOL_NACK_INVALID_REQUEST,
        calls := [] }
    else
      let tb2 : TransferBuffer :=
        { tb with buf := tb.buf.take tb.msgSize ++ packet.drop 1,
                  msgSize := tb.msgSize + dataSize }
      { tb := tb2,
        resSize := 3, response := TransferResponse PROTOCOL_ACK_OK,
        calls := [] }

/-- HandleTransferEnd of transfer.c.  Note the guard: a packet whose size
differs from 1 yields a zero size response. -/
def HandleTransferEnd (us : List Nat → Nat → List Nat) (tb : TransferBuffer)
    (packet : List Nat) (maxPacketSize : Nat) : ProcessResult :=
  if packet.length ≠ 1 then
    { tb := tb, resSize := 0, response := [], calls := [] }
  else if tb.state ≠ .rx then
    { tb := tb, resSize := 3,
      response := TransferResponse PROTOCOL_NACK_REQUEST_FAILED, calls := [] }
  else if tb.msgSize ≠ tb.transferSize then
    { tb := tb, resSize := 3,
      response := TransferResponse PROTOCOL_NACK_REQUEST_OUT_OF_RANGE,
      calls := [] }
  else
    let req := tb.buf.take tb.msgSize
    let res := us req (maxPacketSize - 1)
    { tb := tb,
      resSize := 1 + res.length,
      response := TRANSFER_SINGLE_PACKET :: res,
      calls := [req] }

/-- TRANSFER_Process of transfer.c.  The packet is given as the list of its
`packetSize` bytes.  The final size check of the C code zeroes the returned
size and response but keeps the state mutations and server calls that
already happened. -/
def TRANSFER_Process (us : List Nat → Nat → List Nat) (tb : TransferBuffer)
    (packet : List Nat) (maxPacketSize : Nat) : ProcessResult :=
  if packet.length < 2 ∨ packet.length > tb.bufSize ∨ maxPacketSize < 6 then
    { tb := tb, resSize := 0, response := [], calls := [] }
  else
    let r :=
      if packet.getD 0 0 = TRANSFER_SINGLE_PACKET then
        HandleSinglePacket us tb packet maxPacketSize
      else if packet.getD 0 0 = TRANSFER_MULTI_PACKET_INIT then
        HandleTransferStart tb packet
      else if packet.getD 0 0 = TRANSFER_MULTI_PACKET_TRANSFER then
        HandleTransferData tb packet
      else if packet.getD 0 0 = TRANSFER_MULTI_PACKET_END then
        HandleTransferEnd us tb packet maxPacketSize
      else
        { tb := tb, resSize := 0, response := [], calls := [] }
    if r.resSize > maxPacketSize then
      { tb := r.tb, resSize := 0, response := [], calls := r.calls }
    else
      r

/-- TRANSFER_Init of transfer.c (null checks aside). -/
def TRANSFER_Init (bufSize : Nat) : Option TransferBuffer :=
  if bufSize < 2 then none
  else some { buf := [], bufSize := bufSize, msgSize := 0, transferSize := 0,
              state := .idle }

/-- Process a sequence of packets, accumulating all server calls and
keeping the result of the last packet. -/
def TRANSFER_ProcessSeq (us : List Nat → Nat → List Nat)
    (tb : TransferBuffer) (packets : List (List Nat)) (maxPacketSize : Nat) :
    TransferBuffer × List (List Nat) × Nat :=
  packets.foldl
    (fun acc p =>
      let r := TRANSFER_Process us acc.1 p maxPacketSize
      (r.tb, acc.2.1 ++ r.calls, r.resSize))
    (tb, [], 0)

/-- Mirror server used by transfer_test.cpp: the response is the bitwise
complement of the request. -/
def mirrorServer : List Nat → Nat → List Nat :=
  fun req _ => req.map (fun b => 255 - b)

/-- Transfer buffer initialised exactly as in transfer_test.cpp:
a 1024 byte working buffer. -/
def testTb : TransferBuffer :=
  { buf := [], bufSize := 1024, msgSize := 0, transferSize := 0,
    state := .idle }

/-- Packet sequence of the "Correct order" test of transfer_test.cpp:
MULTI_INIT(16), three MULTI_TRANSFER packets carrying 4+4+8 bytes, and the
one byte MULTI_END packet. -/
def testSequence : List (List Nat) :=
  [ [0x01, 0x00, 0x00, 0x00, 0x10],
    [0x02, 0x00, 0x11, 0x22, 0x33],
    [0x02, 0x44, 0x55, 0x66, 0x77],
    [0x02, 0x88, 0x99, 0xAA, 0xBB, 0xCC, 0xDD, 0xEE, 0xFF],
    [0x03] ]

/-- C1: the claim states that a MULTI_INIT / MULTI_TRANSFER* / MULTI_END
sequence with total length L (0 < L <= bufSize) makes TRANSFER_Process
invoke US_ProcessRequest exactly once with the concatenated payload.  The
code cannot do this: TRANSFER_Process rejects every packet shorter than 2
bytes, while HandleTransferEnd accepts only 1 byte packets, so a
MULTI_PACKET_END packet never reaches the server (first conjunct, for
every state and packet).  On the concrete INIT(16) / 4+4+8 byte sequence
of transfer_test.cpp the reassembly itself works (fourth conjunct), but
the final END step returns 0 bytes and the server is invoked zero times,
not once (second and third conjuncts). -/
theorem transfer_multi_end_never_invokes_server :
    (∀ (us : List Nat → Nat → List Nat) (tb : TransferBuffer)
        (packet : List Nat) (m : Nat),
        packet.getD 0 0 = TRANSFER_MULTI_PACKET_END →
        (TRANSFER_Process us tb packet m).calls = []) ∧
    (TRANSFER_ProcessSeq mirrorServer testTb testSequence 32).2.1 = [] ∧
    (TRANSFER_ProcessSeq mirrorServer testTb testSequence 32).2.2 = 0 ∧
    (TRANSFER_ProcessSeq mirrorServer testTb (testSequence.take 4)
        32).1.buf =
      [0x00, 0x11, 0x22, 0x33, 0x44, 0x55, 0x66, 0x77,
       0x88, 0x99, 0xAA, 0xBB, 0xCC, 0xDD, 0xEE, 0xFF] := by
  refine ⟨?_, by decide, by decide, by decide⟩
  intro us tb packet m hend
  have hlen1 : packet.length < 2 ∨ packet.length ≠ 1 := by omega
  unfold TRANSFER_Process
  rw [hend]
  rcases hlen1 with h1 | h1
  · have : packet.length < 2 ∨ packet.length > tb.bufSize ∨ m < 6 := Or.inl h1
    rw [if_pos this]
  · by_cases hg : packet.length < 2 ∨ packet.length > tb.bufSize ∨ m < 6
    · rw [if_pos hg]
    · rw [if_neg hg]
      simp only [TRANSFER_MULTI_PACKET_END, TRANSFER_SINGLE_PACKET,
        TRANSFER_MULTI_PACKET_INIT, TRANSFER_MULTI_PACKET_TRANSFER,
        HandleTransferEnd]
      norm_num
      simp only [if_neg h1]
      split <;> rfl

/-- Witness: the universally quantified first conjunct of the C1 theorem
applied to the concrete one byte MULTI_PACKET_END packet of
transfer_test.cpp. -/
theorem transfer_multi_end_never_invokes_server_witness :
    (([0x03] : List Nat).getD 0 0 = TRANSFER_MULTI_PACKET_END) ∧
    (TRANSFER_Process mirrorServer testTb [0x03] 32).calls = [] :=
  ⟨by decide,
   transfer_multi_end_never_invokes_server.1 mirrorServer testTb [0x03] 32
     (by decide)⟩

/-- C7: the claim states that a well formed 5 byte MULTI_INIT packet whose
declared length is 0 or greater than bufSize is rejected with
REQUEST_OUT_OF_RANGE (0xE0) and does not enter the RX state.  The code
only rejects lengths greater than bufSize: the length 0 MULTI_INIT packet
is answered with ACK_OK (0x00) and the buffer does enter the RX state
(transfer_test.cpp "Transfer length parameter 0" expects 0xE0 here). -/
theorem transfer_init_zero_length_accepted :
    (TRANSFER_Process mirrorServer testTb [0x01, 0, 0, 0, 0] 32).response
        = TransferResponse PROTOCOL_ACK_OK ∧
    (TRANSFER_Process mirrorServer testTb [0x01, 0, 0, 0, 0] 32).tb.state
        = TransferState.rx ∧
    TransferResponse PROTOCOL_ACK_OK ≠
      TransferResponse PROTOCOL_NACK_REQUEST_OUT_OF_RANGE := by
  decide

/-! ## Fragment store (src/fragmentstore/fragmentstore.c)

Packed struct sizes from default_types.h: sizeof(Metadata_t) = 200,
sizeof(Fragment_t) = 4096.  size_t is 64 bits, Address_t (default_types.h)
is uint32_t; the subtraction in FA_GetMaxFragmentIndex and the address
computation of GetFragmentAddress are modelled with their C wrap around
semantics.  The injected flash Reader becomes a function from address and
size to the read bytes, or none when the device is busy; the fragment and
metadata validators become functions on the read bytes. -/

def METADATA_SIZE : Nat := 200
def FRAGMENT_SIZE : Nat := 4096
def SIZE_MOD : Nat := 2 ^ 64
def SIZE_MAX_C : Nat := 2 ^ 64 - 1
def ADDRESS_MOD : Nat := 2 ^ 32

/-- Wrapping size_t subtraction. -/
def sub64 (a b : Nat) : Nat := (SIZE_MOD + a - b) % SIZE_MOD

structure FAMemoryConfig where
  baseAddress : Nat
  sectorSize : Nat
  memorySize : Nat
  eraseValue : Nat
  Reader : Nat → Nat → Option (List Nat)

structure FragmentArea where
  memoryConfig : FAMemoryConfig
  metadataSectors : Nat
  fragmentSectors : Nat
  ValidateFragment : List Nat → Bool

/-- GetRequiredSectors of fragmentstore.c. -/
def GetRequiredSectors (sectorSize size : Nat) : Nat :=
  (sectorSize + size - 1) / sectorSize

/-- Successful branch of FA_InitStruct: the two sector counts. -/
def mkFragmentArea (mc : FAMemoryConfig) (validate : List Nat → Bool) :
    FragmentArea :=
  { memoryConfig := mc,
    metadataSectors := GetRequiredSectors mc.sectorSize METADATA_SIZE,
    fragmentSectors := GetRequiredSectors mc.sectorSize FRAGMENT_SIZE,
    ValidateFragment := validate }

/-- FA_InitStruct of fragmentstore.c (null pointer checks aside). -/
def FA_InitStruct (mc : FAMemoryConfig) (validate : List Nat → Bool) :
    Option FragmentArea :=
  if mc.memorySize = 0 ∨ mc.sectorSize = 0 ∨ mc.memorySize % mc.sectorSize ≠ 0
  then none
  else some (mkFragmentArea mc validate)

/-- IsEmpty of fragmentstore.c: every byte equals the erase value. -/
def IsEmpty (area : FragmentArea) (mem : List Nat) : Bool :=
  mem.all (· == area.memoryConfig.eraseValue)

/-- GetFragmentAddress of fragmentstore.c, with size_t multiplication and
the uint32 Address_t truncation made explicit. -/
def GetFragmentAddress (area : FragmentArea) (index : Nat) : Nat :=
  let sectorIndex :=
    (area.metadataSectors + index * area.fragmentSectors) % SIZE_MOD
  (area.memoryConfig.baseAddress +
    (sectorIndex * area.memoryConfig.sectorSize) % SIZE_MOD) % ADDRESS_MOD

/-- CheckAddressValidity of fragmentstore.c (used by FA_ReadFragment and
FA_WriteFragment, not by FA_FindLastFragment). -/
def CheckAddressValidity (area : FragmentArea) (address size : Nat) : Bool :=
  let startAddress := area.memoryConfig.baseAddress
  let endAddress :=
    (startAddress + area.memoryConfig.memorySize) % ADDRESS_MOD
  if address < startAddress ∨ address ≥ endAddress ∨
      address + size > endAddress
  then false
  else true

/-- FA_GetMaxFragmentIndex of fragmentstore.c. -/
def FA_GetMaxFragmentIndex (area : FragmentArea) : Nat :=
  let totalSectors := area.memoryConfig.memorySize / area.memoryConfig.sectorSize
  let totalFragSec := sub64 totalSectors area.metadataSectors
  totalFragSec / area.fragmentSectors

inductive FAReturn where
  | ok
  | empty
  | invalid
  | busy
  | param
  deriving DecidableEq, Repr

/-- Result of the last-fragment search: the return code, the value the out
parameter `index` holds on return (none when it was never written), and
the list of addresses passed to the flash Reader, in probe order. -/
structure FindResult where
  code : FAReturn
  index : Option Nat
  probes : List Nat
  deriving DecidableEq, Repr

/-- Loop of FA_FindLastFragment of fragmentstore.c.  One iteration per
call; `index` is threaded as the current value of the out parameter. -/
def FA_FindLastFragment_go (area : FragmentArea) (left right : Nat)
    (index : Option Nat) (probes : List Nat) : FindResult :=
  if _h : left ≤ right then
    match area.memoryConfig.Reader
        (GetFragmentAddress area (left + (right - left) / 2)) FRAGMENT_SIZE
    with
    | none =>
      ⟨.busy, index,
        probes ++ [GetFragmentAddress area (left + (right - left) / 2)]⟩
    | some fragment =>
      if IsEmpty area fragment then
        if left + (right - left) / 2 = 0 then
          ⟨.empty, index,
            probes ++ [GetFragmentAddress area (left + (right - left) / 2)]⟩
        else
          FA_FindLastFragment_go area left (left + (right - left) / 2 - 1)
            index
            (probes ++ [GetFragmentAddress area (left + (right - left) / 2)])
      else if area.ValidateFragment fragment then
        if left + (right - left) / 2 = SIZE_MAX_C then
          ⟨.ok, index,
            probes ++ [GetFragmentAddress area (left + (right - left) / 2)]⟩
        else
          FA_FindLastFragment_go area (left + (right - left) / 2 + 1) right
            (some (left + (right - left) / 2))
            (probes ++ [GetFragmentAddress area (left + (right - left) / 2)])
      else
        ⟨.invalid, some (left + (right - left) / 2),
          probes ++ [GetFragmentAddress area (left + (right - left) / 2)]⟩
  else ⟨.ok, index, probes⟩
termination_by right + 1 - left
decreasing_by
  · have : (right - left) / 2 ≤ right - left := Nat.div_le_self _ _
    omega
  · have : (right - left) / 2 ≤ right - left := Nat.div_le_self _ _
    omega

/-- FA_FindLastFragment of fragmentstore.c (null checks aside). -/
def FA_FindLastFragment (area : FragmentArea) : FindResult :=
  FA_FindLastFragment_go area 0 (FA_GetMaxFragmentIndex area) none []

/-- View of one fragment slot as the search observes it, derived from the
Reader, IsEmpty and the fragment validator. -/
inductive SlotView where
  | busy
  | empty
  | valid
  | invalid
  deriving DecidableEq, Repr

def slotView (area : FragmentArea) (i : Nat) : SlotView :=
  match area.memoryConfig.Reader (GetFragmentAddress area i) FRAGMENT_SIZE with
  | none => .busy
  | some fragment =>
    if IsEmpty area fragment then .empty
    else if area.ValidateFragment fragment then .valid
    else .invalid

/-- Modelled from the spec: FA_FindLastFragmentLinear is declared in
fragmentstore.h and exercised by fragmentstore_test.cpp, but its
definition is not among the sources.  Spec [4.1]: same contract as
find_last_fragment, scans ascending until the first EMPTY or INVALID
slot.  Loop of the linear scan; `index` records the last valid index. -/
def FA_FindLastFragmentLinear_go (area : FragmentArea) (i : Nat)
    (index : Option Nat) : FAReturn × Option Nat :=
  if _h : i ≤ FA_GetMaxFragmentIndex area then
    match area.memoryConfig.Reader (GetFragmentAddress area i) FRAGMENT_SIZE
    with
    | none => (.busy, index)
    | some fragment =>
      if IsEmpty area fragment then
        if i = 0 then (.empty, index) else (.ok, index)
      else if area.ValidateFragment fragment then
        FA_FindLastFragmentLinear_go area (i + 1) (some i)
      else (.invalid, some i)
  else (.ok, index)
termination_by FA_GetMaxFragmentIndex area + 1 - i

/-- Modelled from the spec: linear search over the whole slot range. -/
def FA_FindLastFragmentLinear (area : FragmentArea) : FAReturn × Option Nat :=
  FA_FindLastFragmentLinear_go area 0 none

/-! ### Lemmas about the last-fragment searches -/

lemma slotView_valid_elim (area : FragmentArea) (i : Nat)
    (h : slotView area i = .valid) :
    ∃ b, area.memoryConfig.Reader (GetFragmentAddress area i) FRAGMENT_SIZE
        = some b ∧ IsEmpty area b = false ∧ area.ValidateFragment b = true := by
  unfold slotView at h
  cases hread : area.memoryConfig.Reader (GetFragmentAddress area i)
      FRAGMENT_SIZE with
  | none => rw [hread] at h; exact absurd h (by simp)
  | some b =>
    rw [hread] at h
    refine ⟨b, rfl, ?_, ?_⟩ <;>
    · by_cases he : IsEmpty area b <;> by_cases hv : area.ValidateFragment b <;>
        simp [he, hv] at h ⊢

lemma slotView_empty_elim (area : FragmentArea) (i : Nat)
    (h : slotView area i = .empty) :
    ∃ b, area.memoryConfig.Reader (GetFragmentAddress area i) FRAGMENT_SIZE
        = some b ∧ IsEmpty area b = true := by
  unfold slotView at h
  cases hread : area.memoryConfig.Reader (GetFragmentAddress area i)
      FRAGMENT_SIZE with
  | none => rw [hread] at h; exact absurd h (by simp)
  | some b =>
    rw [hread] at h
    refine ⟨b, rfl, ?_⟩
    by_cases he : IsEmpty area b
    · exact he
    · by_cases hv : area.ValidateFragment b <;> simp [he, hv] at h

lemma go_prefix (area : FragmentArea) (k : Nat)
    (hmax : FA_GetMaxFragmentIndex area < SIZE_MAX_C)
    (hvalid : ∀ i < k + 1, slotView area i = .valid)
    (hempty : ∀ i < FA_GetMaxFragmentIndex area + 1, k < i →
      slotView area i = .empty) :
    ∀ n l r idx probes, r + 1 - l ≤ n → l ≤ k + 1 → k ≤ r →
      r ≤ FA_GetMaxFragmentIndex area →
      (l = 0 ∨ idx = some (l - 1)) →
      (FA_FindLastFragment_go area l r idx probes).code = .ok ∧
      (FA_FindLastFragment_go area l r idx probes).index = some k := by
  intro n
  induction n with
  | zero =>
    intro l r idx probes hn hl hkr hr hidx
    have hlr : ¬ l ≤ r := by omega
    unfold FA_FindLastFragment_go
    rw [dif_neg hlr]
    have hl1 : l = k + 1 := by omega
    rcases hidx with h0 | hsome
    · omega
    · simp [hsome, hl1]
  | succ n ih =>
    intro l r idx probes hn hl hkr hr hidx
    by_cases hlr : l ≤ r
    · unfold FA_FindLastFragment_go
      rw [dif_pos hlr]
      have hdiv : (r - l) / 2 ≤ r - l := Nat.div_le_self _ _
      set middle := l + (r - l) / 2 with hmid
      have hml : l ≤ middle := by omega
      have hmr : middle ≤ r := by omega
      by_cases hmk : middle ≤ k
      · obtain ⟨b, hread, hne, hval⟩ :=
          slotView_valid_elim area middle (hvalid middle (by omega))
        rw [hread]
        simp only [hne, hval, Bool.false_eq_true, if_false, if_true]
        have hms : ¬ middle = SIZE_MAX_C := by
          have : middle ≤ FA_GetMaxFragmentIndex area := by omega
          omega
        rw [if_neg hms]
        exact ih (middle + 1) r (some middle) (probes ++ [GetFragmentAddress area middle])
          (by omega) (by omega) (by omega) hr (Or.inr (by simp))
      · have hkm : k < middle := by omega
        obtain ⟨b, hread, he⟩ :=
          slotView_empty_elim area middle (hempty middle (by omega) hkm)
        rw [hread]
        simp only [he, if_true]
        have hm0 : ¬ middle = 0 := by omega
        rw [if_neg hm0]
        exact ih l (middle - 1) idx (probes ++ [GetFragmentAddress area middle])
          (by omega) hl (by omega) (by omega) hidx
    · unfold FA_FindLastFragment_go
      rw [dif_neg hlr]
      have hl1 : l = k + 1 := by omega
      rcases hidx with h0 | hsome
      · omega
      · simp [hsome, hl1]

lemma go_allempty (area : FragmentArea)
    (hempty : ∀ i < FA_GetMaxFragmentIndex area + 1,
      slotView area i = .empty) :
    ∀ n r idx probes, r ≤ n → r ≤ FA_GetMaxFragmentIndex area →
      (FA_FindLastFragment_go area 0 r idx probes).code = .empty ∧
      (FA_FindLastFragment_go area 0 r idx probes).index = idx := by
  intro n
  induction n with
  | zero =>
    intro r idx probes hn hr
    have hr0 : r = 0 := by omega
    subst hr0
    unfold FA_FindLastFragment_go
    rw [dif_pos (by omega)]
    obtain ⟨b, hread, he⟩ :=
      slotView_empty_elim area 0 (hempty 0 (by omega))
    simp only [Nat.sub_zero, Nat.zero_div, Nat.add_zero, Nat.zero_add]
    rw [hread]
    simp [he]
  | succ n ih =>
    intro r idx probes hn hr
    unfold FA_FindLastFragment_go
    rw [dif_pos (by omega)]
    have hdiv : (r - 0) / 2 ≤ r - 0 := Nat.div_le_self _ _
    obtain ⟨b, hread, he⟩ :=
      slotView_empty_elim area (0 + (r - 0) / 2) (hempty _ (by omega))
    rw [hread]
    simp only [he, if_true]
    by_cases hm0 : 0 + (r - 0) / 2 = 0
    · rw [if_pos hm0]
      exact ⟨rfl, rfl⟩
    · rw [if_neg hm0]
      exact ih (0 + (r - 0) / 2 - 1) idx _ (by omega) (by omega)

lemma go_step_empty (area : FragmentArea) (l r : Nat) (idx : Option Nat)
    (probes : List Nat) (b : List Nat) (hlr : l ≤ r)
    (hread : area.memoryConfig.Reader
      (GetFragmentAddress area (l + (r - l) / 2)) FRAGMENT_SIZE = some b)
    (he : IsEmpty area b = true) (hm0 : l + (r - l) / 2 ≠ 0) :
    FA_FindLastFragment_go area l r idx probes =
      FA_FindLastFragment_go area l (l + (r - l) / 2 - 1) idx
        (probes ++ [GetFragmentAddress area (l + (r - l) / 2)]) := by
  conv_lhs => rw [FA_FindLastFragment_go]
  rw [dif_pos hlr, hread]
  simp only [he, hm0, eq_self_iff_true, if_true, if_false]

lemma go_step_valid (area : FragmentArea) (l r : Nat) (idx : Option Nat)
    (probes : List Nat) (b : List Nat) (hlr : l ≤ r)
    (hread : area.memoryConfig.Reader
      (GetFragmentAddress area (l + (r - l) / 2)) FRAGMENT_SIZE = some b)
    (he : IsEmpty area b = false) (hv : area.ValidateFragment b = true)
    (hms : l + (r - l) / 2 ≠ SIZE_MAX_C) :
    FA_FindLastFragment_go area l r idx probes =
      FA_FindLastFragment_go area (l + (r - l) / 2 + 1) r
        (some (l + (r - l) / 2))
        (probes ++ [GetFragmentAddress area (l + (r - l) / 2)]) := by
  conv_lhs => rw [FA_FindLastFragment_go]
  rw [dif_pos hlr, hread]
  simp only [he, hv, hms, Bool.false_eq_true, eq_self_iff_true, if_true,
    if_false]

lemma go_emit_empty (area : FragmentArea) (l r : Nat) (idx : Option Nat)
    (probes : List Nat) (b : List Nat) (hlr : l ≤ r)
    (hread : area.memoryConfig.Reader
      (GetFragmentAddress area (l + (r - l) / 2)) FRAGMENT_SIZE = some b)
    (he : IsEmpty area b = true) (hm0 : l + (r - l) / 2 = 0) :
    FA_FindLastFragment_go area l r idx probes =
      ⟨.empty, idx,
        probes ++ [GetFragmentAddress area (l + (r - l) / 2)]⟩ := by
  conv_lhs => rw [FA_FindLastFragment_go]
  rw [dif_pos hlr, hread]
  simp only [he, hm0, eq_self_iff_true, if_true]

lemma go_emit_invalid (area : FragmentArea) (l r : Nat) (idx : Option Nat)
    (probes : List Nat) (b : List Nat) (hlr : l ≤ r)
    (hread : area.memoryConfig.Reader
      (GetFragmentAddress area (l + (r - l) / 2)) FRAGMENT_SIZE = some b)
    (he : IsEmpty area b = false) (hv : area.ValidateFragment b = false) :
    FA_FindLastFragment_go area l r idx probes =
      ⟨.invalid, some (l + (r - l) / 2),
        probes ++ [GetFragmentAddress area (l + (r - l) / 2)]⟩ := by
  conv_lhs => rw [FA_FindLastFragment_go]
  rw [dif_pos hlr, hread]
  simp only [he, hv, Bool.false_eq_true, if_false]

lemma go_emit_busy (area : FragmentArea) (l r : Nat) (idx : Option Nat)
    (probes : List Nat) (hlr : l ≤ r)
    (hread : area.memoryConfig.Reader
      (GetFragmentAddress area (l + (r - l) / 2)) FRAGMENT_SIZE = none) :
    FA_FindLastFragment_go area l r idx probes =
      ⟨.busy, idx,
        probes ++ [GetFragmentAddress area (l + (r - l) / 2)]⟩ := by
  conv_lhs => rw [FA_FindLastFragment_go]
  rw [dif_pos hlr, hread]

lemma go_emit_done (area : FragmentArea) (l r : Nat) (idx : Option Nat)
    (probes : List Nat) (hlr : ¬ l ≤ r) :
    FA_FindLastFragment_go area l r idx probes = ⟨.ok, idx, probes⟩ := by
  rw [FA_FindLastFragment_go, dif_neg hlr]

lemma go_emit_sizemax (area : FragmentArea) (l r : Nat) (idx : Option Nat)
    (probes : List Nat) (b : List Nat) (hlr : l ≤ r)
    (hread : area.memoryConfig.Reader
      (GetFragmentAddress area (l + (r - l) / 2)) FRAGMENT_SIZE = some b)
    (he : IsEmpty area b = false) (hv : area.ValidateFragment b = true)
    (hms : l + (r - l) / 2 = SIZE_MAX_C) :
    FA_FindLastFragment_go area l r idx probes =
      ⟨.ok, idx,
        probes ++ [GetFragmentAddress area (l + (r - l) / 2)]⟩ := by
  conv_lhs => rw [FA_FindLastFragment_go]
  rw [dif_pos hlr, hread]
  simp only [he, hv, hms, Bool.false_eq_true, eq_self_iff_true, if_true,
    if_false]

lemma go_invalid (area : FragmentArea) :
    ∀ n l r idx probes, r + 1 - l ≤ n →
      (FA_FindLastFragment_go area l r idx probes).code = .invalid →
      ∃ i, (FA_FindLastFragment_go area l r idx probes).index = some i ∧
        slotView area i = .invalid := by
  intro n
  induction n with
  | zero =>
    intro l r idx probes hn hcode
    rw [go_emit_done area l r idx probes (by omega)] at hcode
    exact absurd hcode (by simp)
  | succ n ih =>
    intro l r idx probes hn hcode
    by_cases hlr : l ≤ r
    · have hdiv : (r - l) / 2 ≤ r - l := Nat.div_le_self _ _
      cases hread : area.memoryConfig.Reader
          (GetFragmentAddress area (l + (r - l) / 2)) FRAGMENT_SIZE with
      | none =>
        rw [go_emit_busy area l r idx probes hlr hread] at hcode
        exact absurd hcode (by simp)
      | some b =>
        by_cases he : IsEmpty area b
        · by_cases hm0 : l + (r - l) / 2 = 0
          · rw [go_emit_empty area l r idx probes b hlr hread he hm0] at hcode
            exact absurd hcode (by simp)
          · rw [go_step_empty area l r idx probes b hlr hread he hm0]
              at hcode ⊢
            exact ih l (l + (r - l) / 2 - 1) idx _ (by omega) hcode
        · have hef : IsEmpty area b = false := by simp [he]
          by_cases hv : area.ValidateFragment b
          · by_cases hms : l + (r - l) / 2 = SIZE_MAX_C
            · rw [go_emit_sizemax area l r idx probes b hlr hread hef hv hms]
                at hcode
              exact absurd hcode (by simp)
            · rw [go_step_valid area l r idx probes b hlr hread hef hv hms]
                at hcode ⊢
              exact ih (l + (r - l) / 2 + 1) r (some (l + (r - l) / 2)) _
                (by omega) hcode
          · have hvf : area.ValidateFragment b = false := by simp [hv]
            rw [go_emit_invalid area l r idx probes b hlr hread hef hvf]
              at hcode ⊢
            refine ⟨l + (r - l) / 2, rfl, ?_⟩
            unfold slotView
            rw [hread]
            simp [hef, hvf]
    · rw [go_emit_done area l r idx probes hlr] at hcode
      exact absurd hcode (by simp)

lemma lin_emit_done (area : FragmentArea) (i : Nat) (idx : Option Nat)
    (hi : ¬ i ≤ FA_GetMaxFragmentIndex area) :
    FA_FindLastFragmentLinear_go area i idx = (.ok, idx) := by
  rw [FA_FindLastFragmentLinear_go, dif_neg hi]

lemma lin_emit_busy (area : FragmentArea) (i : Nat) (idx : Option Nat)
    (hi : i ≤ FA_GetMaxFragmentIndex area)
    (hread : area.memoryConfig.Reader (GetFragmentAddress area i)
      FRAGMENT_SIZE = none) :
    FA_FindLastFragmentLinear_go area i idx = (.busy, idx) := by
  conv_lhs => rw [FA_FindLastFragmentLinear_go]
  rw [dif_pos hi, hread]

lemma lin_emit_empty (area : FragmentArea) (i : Nat) (idx : Option Nat)
    (b : List Nat) (hi : i ≤ FA_GetMaxFragmentIndex area)
    (hread : area.memoryConfig.Reader (GetFragmentAddress area i)
      FRAGMENT_SIZE = some b)
    (he : IsEmpty area b = true) :
    FA_FindLastFragmentLinear_go area i idx =
      (if i = 0 then (.empty, idx) else (.ok, idx)) := by
  conv_lhs => rw [FA_FindLastFragmentLinear_go]
  rw [dif_pos hi, hread]
  simp only [he, if_true]

lemma lin_emit_invalid (area : FragmentArea) (i : Nat) (idx : Option Nat)
    (b : List Nat) (hi : i ≤ FA_GetMaxFragmentIndex area)
    (hread : area.memoryConfig.Reader (GetFragmentAddress area i)
      FRAGMENT_SIZE = some b)
    (he : IsEmpty area b = false) (hv : area.ValidateFragment b = false) :
    FA_FindLastFragmentLinear_go area i idx = (.invalid, some i) := by
  conv_lhs => rw [FA_FindLastFragmentLinear_go]
  rw [dif_pos hi, hread]
  simp only [he, hv, Bool.false_eq_true, if_false]

lemma lin_step_valid (area : FragmentArea) (i : Nat) (idx : Option Nat)
    (b : List Nat) (hi : i ≤ FA_GetMaxFragmentIndex area)
    (hread : area.memoryConfig.Reader (GetFragmentAddress area i)
      FRAGMENT_SIZE = some b)
    (he : IsEmpty area b = false) (hv : area.ValidateFragment b = true) :
    FA_FindLastFragmentLinear_go area i idx =
      FA_FindLastFragmentLinear_go area (i + 1) (some i) := by
  conv_lhs => rw [FA_FindLastFragmentLinear_go]
  rw [dif_pos hi, hread]
  simp only [he, hv, Bool.false_eq_true, if_false, if_true]

lemma lin_prefix (area : FragmentArea) (k : Nat)
    (hk : k ≤ FA_GetMaxFragmentIndex area)
    (hvalid : ∀ i < k + 1, slotView area i = .valid)
    (hempty : ∀ i < FA_GetMaxFragmentIndex area + 1, k < i →
      slotView area i = .empty) :
    ∀ n i idx, FA_GetMaxFragmentIndex area + 1 - i ≤ n → i ≤ k + 1 →
      (i = 0 ∨ idx = some (i - 1)) →
      FA_FindLastFragmentLinear_go area i idx = (.ok, some k) := by
  intro n
  induction n with
  | zero =>
    intro i idx hn hik hidx
    have hi : ¬ i ≤ FA_GetMaxFragmentIndex area := by omega
    rw [lin_emit_done area i idx hi]
    have hik1 : i = k + 1 := by omega
    rcases hidx with h0 | hsome
    · omega
    · rw [hsome, hik1]
      simp
  | succ n ih =>
    intro i idx hn hik hidx
    by_cases hi : i ≤ FA_GetMaxFragmentIndex area
    · by_cases hikk : i ≤ k
      · obtain ⟨b, hread, hne, hval⟩ :=
          slotView_valid_elim area i (hvalid i (by omega))
        rw [lin_step_valid area i idx b hi hread hne hval]
        exact ih (i + 1) (some i) (by omega) (by omega) (Or.inr (by simp))
      · have hik1 : i = k + 1 := by omega
        obtain ⟨b, hread, he⟩ :=
          slotView_empty_elim area i (hempty i (by omega) (by omega))
        rw [lin_emit_empty area i idx b hi hread he]
        rw [if_neg (by omega)]
        rcases hidx with h0 | hsome
        · omega
        · rw [hsome, hik1]
          simp
    · rw [lin_emit_done area i idx hi]
      have hik1 : i = k + 1 := by omega
      rcases hidx with h0 | hsome
      · omega
      · rw [hsome, hik1]
        simp


lemma lin_allempty (area : FragmentArea)
    (hempty0 : slotView area 0 = .empty) :
    FA_FindLastFragmentLinear area = (.empty, none) := by
  obtain ⟨b, hread, he⟩ := slotView_empty_elim area 0 hempty0
  unfold FA_FindLastFragmentLinear
  rw [lin_emit_empty area 0 none b (Nat.zero_le _) hread he]
  norm_num

lemma isEmpty_replicate (area : FragmentArea) (n v : Nat) :
    IsEmpty area (List.replicate n v) =
      (if n = 0 then true else v == area.memoryConfig.eraseValue) := by
  rw [IsEmpty, List.all_replicate]

/-! ### Concrete fragment areas

Three concrete configurations exercise the searches.  Each uses 4096 byte
sectors, so one metadata sector and one sector per fragment slot; slot i
then sits at address (1 + i) * 4096.  The flash Reader answers every read
with a full 4096 byte fragment record. -/

/-- Area with five sectors (four fragment slots, max index 4): slots 0 and
1 hold non-empty valid fragments, all higher slots are erased — a
contiguous prefix with k = 1. -/
def prefixMC : FAMemoryConfig :=
  { baseAddress := 0, sectorSize := 4096, memorySize := 5 * 4096,
    eraseValue := 255,
    Reader := fun addr _ =>
      some (if addr ≤ 8192 then List.replicate 4096 0
            else List.replicate 4096 255) }

def prefixArea : FragmentArea := mkFragmentArea prefixMC (fun _ => true)

lemma sv_prefix0 : slotView prefixArea 0 = .valid := by
  unfold slotView
  rw [show prefixArea.memoryConfig.Reader (GetFragmentAddress prefixArea 0)
      FRAGMENT_SIZE = some (List.replicate 4096 0) from rfl]
  simp only [isEmpty_replicate]
  norm_num [prefixArea, prefixMC, mkFragmentArea]

lemma sv_prefix1 : slotView prefixArea 1 = .valid := by
  unfold slotView
  rw [show prefixArea.memoryConfig.Reader (GetFragmentAddress prefixArea 1)
      FRAGMENT_SIZE = some (List.replicate 4096 0) from rfl]
  simp only [isEmpty_replicate]
  norm_num [prefixArea, prefixMC, mkFragmentArea]

lemma sv_prefix_hi (i : Nat) (h2 : 2 ≤ i) (h4 : i ≤ 4) :
    slotView prefixArea i = .empty := by
  have haddr : GetFragmentAddress prefixArea i = (1 + i) * 4096 := by
    unfold GetFragmentAddress prefixArea prefixMC mkFragmentArea
      GetRequiredSectors METADATA_SIZE FRAGMENT_SIZE SIZE_MOD ADDRESS_MOD
    norm_num
    omega
  unfold slotView
  rw [haddr]
  rw [show prefixArea.memoryConfig.Reader ((1 + i) * 4096) FRAGMENT_SIZE =
      some (if (1 + i) * 4096 ≤ 8192 then List.replicate 4096 0
            else List.replicate 4096 255) from rfl]
  rw [if_neg (by omega)]
  simp only [isEmpty_replicate]
  norm_num [prefixArea, prefixMC, mkFragmentArea]

/-- Area with three sectors (max index 2): slot 0 erased, slot 1 holding a
non-empty valid fragment, slot 2 erased — the contiguous prefix invariant
does not hold. -/
def mixedMC : FAMemoryConfig :=
  { baseAddress := 0, sectorSize := 4096, memorySize := 3 * 4096,
    eraseValue := 255,
    Reader := fun addr _ =>
      some (if addr = 8192 then List.replicate 4096 0
            else List.replicate 4096 255) }

def mixedArea : FragmentArea := mkFragmentArea mixedMC (fun _ => true)

lemma isEmpty_mixed_zero :
    IsEmpty mixedArea (List.replicate 4096 0) = false := by
  rw [isEmpty_replicate]
  norm_num [mixedArea, mixedMC, mkFragmentArea]

lemma isEmpty_mixed_ff :
    IsEmpty mixedArea (List.replicate 4096 255) = true := by
  rw [isEmpty_replicate]
  norm_num [mixedArea, mixedMC, mkFragmentArea]

lemma run_mixed_bin :
    FA_FindLastFragment mixedArea = ⟨.ok, some 1, [8192, 12288]⟩ := by
  unfold FA_FindLastFragment
  rw [show FA_GetMaxFragmentIndex mixedArea = 2 from rfl]
  rw [go_step_valid mixedArea 0 2 none [] (List.replicate 4096 0)
    (by omega) rfl isEmpty_mixed_zero rfl (by decide)]
  norm_num
  rw [show GetFragmentAddress mixedArea 1 = 8192 from rfl]
  rw [go_step_empty mixedArea 2 2 (some 1) [8192] (List.replicate 4096 255)
    (by omega) rfl isEmpty_mixed_ff (by norm_num)]
  norm_num
  rw [show GetFragmentAddress mixedArea 2 = 12288 from rfl]
  rw [go_emit_done mixedArea 2 1 (some 1) [8192, 12288] (by omega)]

lemma run_mixed_lin :
    FA_FindLastFragmentLinear mixedArea = (.empty, none) := by
  unfold FA_FindLastFragmentLinear
  rw [lin_emit_empty mixedArea 0 none (List.replicate 4096 255)
    (by rw [show FA_GetMaxFragmentIndex mixedArea = 2 from rfl]; omega)
    rfl isEmpty_mixed_ff]
  norm_num

/-- Area with three sectors whose remaining sector count after metadata is
an exact multiple of the fragment sector count: max index 2, but only
slots 0 and 1 lie inside the area; slot 2 starts exactly at
baseAddress + memorySize.  Both stored slots are non-empty and valid. -/
def outMC : FAMemoryConfig :=
  { baseAddress := 0, sectorSize := 4096, memorySize := 3 * 4096,
    eraseValue := 255,
    Reader := fun addr _ =>
      some (if addr ≤ 8192 then List.replicate 4096 0
            else List.replicate 4096 255) }

def outArea : FragmentArea := mkFragmentArea outMC (fun _ => true)

lemma isEmpty_out_zero :
    IsEmpty outArea (List.replicate 4096 0) = false := by
  rw [isEmpty_replicate]
  norm_num [outArea, outMC, mkFragmentArea]

lemma isEmpty_out_ff :
    IsEmpty outArea (List.replicate 4096 255) = true := by
  rw [isEmpty_replicate]
  norm_num [outArea, outMC, mkFragmentArea]

lemma run_out_bin :
    FA_FindLastFragment outArea = ⟨.ok, some 1, [8192, 12288]⟩ := by
  unfold FA_FindLastFragment
  rw [show FA_GetMaxFragmentIndex outArea = 2 from rfl]
  rw [go_step_valid outArea 0 2 none [] (List.replicate 4096 0)
    (by omega) rfl isEmpty_out_zero rfl (by decide)]
  norm_num
  rw [show GetFragmentAddress outArea 1 = 8192 from rfl]
  rw [go_step_empty outArea 2 2 (some 1) [8192] (List.replicate 4096 255)
    (by omega) rfl isEmpty_out_ff (by norm_num)]
  norm_num
  rw [show GetFragmentAddress outArea 2 = 12288 from rfl]
  rw [go_emit_done outArea 2 1 (some 1) [8192, 12288] (by omega)]

/-- C3: for every FragmentArea whose slots form a contiguous non-empty
valid prefix 0..k with all higher probed slots erased (and whose reads
succeed, expressed through slotView), FA_FindLastFragment returns OK with
the out parameter set to k, the largest non-empty index; when every probed
slot is empty it returns EMPTY (in particular when slot 0 is empty under
the prefix invariant); and whenever it returns INVALID the reported index
is a probed slot that read non-empty but failed the validator. -/
theorem fa_findLastFragment_contract (area : FragmentArea) :
    (∀ k, FA_GetMaxFragmentIndex area < SIZE_MAX_C →
      k ≤ FA_GetMaxFragmentIndex area →
      (∀ i < k + 1, slotView area i = .valid) →
      (∀ i < FA_GetMaxFragmentIndex area + 1, k < i →
        slotView area i = .empty) →
      (FA_FindLastFragment area).code = .ok ∧
      (FA_FindLastFragment area).index = some k) ∧
    ((∀ i < FA_GetMaxFragmentIndex area + 1, slotView area i = .empty) →
      (FA_FindLastFragment area).code = .empty ∧
      (FA_FindLastFragment area).index = none) ∧
    ((FA_FindLastFragment area).code = .invalid →
      ∃ i, (FA_FindLastFragment area).index = some i ∧
        slotView area i = .invalid) := by
  refine ⟨?_, ?_, ?_⟩
  · intro k hmax hk hvalid hempty
    exact go_prefix area k hmax hvalid hempty
      (FA_GetMaxFragmentIndex area + 1) 0 (FA_GetMaxFragmentIndex area)
      none [] (by omega) (by omega) hk (by omega) (Or.inl rfl)
  · intro hempty
    exact go_allempty area hempty (FA_GetMaxFragmentIndex area)
      (FA_GetMaxFragmentIndex area) none [] (by omega) (by omega)
  · intro hcode
    exact go_invalid area (FA_GetMaxFragmentIndex area + 1) 0
      (FA_GetMaxFragmentIndex area) none [] (by omega) hcode

/-- Witness: the prefix part of the C3 theorem applied to the concrete
five sector area whose slots 0 and 1 are full and whose slots 2..4 are
erased; the search indeed answers OK with index 1. -/
theorem fa_findLastFragment_contract_witness :
    (FA_GetMaxFragmentIndex prefixArea < SIZE_MAX_C ∧
      1 ≤ FA_GetMaxFragmentIndex prefixArea ∧
      (∀ i < 2, slotView prefixArea i = SlotView.valid) ∧
      (∀ i < FA_GetMaxFragmentIndex prefixArea + 1, 1 < i →
        slotView prefixArea i = SlotView.empty)) ∧
    (FA_FindLastFragment prefixArea).code = FAReturn.ok ∧
    (FA_FindLastFragment prefixArea).index = some 1 :=
  ⟨⟨by decide, by decide,
    by
      intro i hi
      interval_cases i
      · exact sv_prefix0
      · exact sv_prefix1,
    by
      intro i hi hlt
      have h4 : i ≤ 4 := by
        rw [show FA_GetMaxFragmentIndex prefixArea = 4 from rfl] at hi
        omega
      exact sv_prefix_hi i (by omega) h4⟩,
   (fa_findLastFragment_contract prefixArea).1 1 (by decide) (by decide)
     (by
       intro i hi
       interval_cases i
       · exact sv_prefix0
       · exact sv_prefix1)
     (by
       intro i hi hlt
       have h4 : i ≤ 4 := by
         rw [show FA_GetMaxFragmentIndex prefixArea = 4 from rfl] at hi
         omega
       exact sv_prefix_hi i (by omega) h4)⟩

/-- C8 (amended): FA_FindLastFragment and the spec modelled
FA_FindLastFragmentLinear return the same code and the same reported
index on every FragmentArea whose flash contents satisfy the contiguous
prefix invariant (a non-empty valid prefix with everything above erased,
or an entirely erased area).  Without the invariant the two searches can
disagree (see the counterexample theorem). -/
theorem fa_find_binary_linear_agree (area : FragmentArea)
    (hmax : FA_GetMaxFragmentIndex area < SIZE_MAX_C)
    (hinv :
      (∃ k, k ≤ FA_GetMaxFragmentIndex area ∧
        (∀ i < k + 1, slotView area i = .valid) ∧
        (∀ i < FA_GetMaxFragmentIndex area + 1, k < i →
          slotView area i = .empty)) ∨
      (∀ i < FA_GetMaxFragmentIndex area + 1, slotView area i = .empty)) :
    (FA_FindLastFragment area).code = (FA_FindLastFragmentLinear area).1 ∧
    (FA_FindLastFragment area).index = (FA_FindLastFragmentLinear area).2
    := by
  rcases hinv with ⟨k, hk, hvalid, hempty⟩ | hempty
  · have hbin := go_prefix area k hmax hvalid hempty
      (FA_GetMaxFragmentIndex area + 1) 0 (FA_GetMaxFragmentIndex area)
      none [] (by omega) (by omega) hk (by omega) (Or.inl rfl)
    have hlin := lin_prefix area k hk hvalid hempty
      (FA_GetMaxFragmentIndex area + 1) 0 none (by omega) (by omega)
      (Or.inl rfl)
    rw [show FA_FindLastFragmentLinear area =
        FA_FindLastFragmentLinear_go area 0 none from rfl, hlin]
    exact ⟨hbin.1, hbin.2⟩
  · have hbin := go_allempty area hempty (FA_GetMaxFragmentIndex area)
      (FA_GetMaxFragmentIndex area) none [] (by omega) (by omega)
    have hlin := lin_allempty area (hempty 0 (by omega))
    rw [hlin]
    exact ⟨hbin.1, hbin.2⟩

/-- Witness: the agreement theorem applied to the concrete contiguous
prefix area (slots 0 and 1 full, the rest erased). -/
theorem fa_find_binary_linear_agree_witness :
    (FA_GetMaxFragmentIndex prefixArea < SIZE_MAX_C) ∧
    (FA_FindLastFragment prefixArea).code =
      (FA_FindLastFragmentLinear prefixArea).1 ∧
    (FA_FindLastFragment prefixArea).index =
      (FA_FindLastFragmentLinear prefixArea).2 :=
  ⟨by decide,
   fa_find_binary_linear_agree prefixArea (by decide)
     (Or.inl ⟨1, by decide,
       by
         intro i hi
         interval_cases i
         · exact sv_prefix0
         · exact sv_prefix1,
       by
         intro i hi hlt
         have h4 : i ≤ 4 := by
           rw [show FA_GetMaxFragmentIndex prefixArea = 4 from rfl] at hi
           omega
         exact sv_prefix_hi i (by omega) h4⟩)⟩

/-- Counterexample to C8 as stated: on the three slot area whose flash
holds an empty slot 0, a valid slot 1 and an empty slot 2 (no contiguous
prefix), the binary search answers OK with index 1 while the linear scan
answers EMPTY — the two searches do not return equal results on every
FragmentArea and flash state. -/
theorem fa_find_binary_linear_disagree :
    (FA_FindLastFragment mixedArea).code = FAReturn.ok ∧
    (FA_FindLastFragment mixedArea).index = some 1 ∧
    FA_FindLastFragmentLinear mixedArea = (FAReturn.empty, none) ∧
    ¬((FA_FindLastFragment mixedArea).code =
        (FA_FindLastFragmentLinear mixedArea).1 ∧
      (FA_FindLastFragment mixedArea).index =
        (FA_FindLastFragmentLinear mixedArea).2) := by
  rw [run_mixed_bin, run_mixed_lin]
  refine ⟨rfl, rfl, rfl, ?_⟩
  intro h
  exact absurd h.1 (by decide)

/-- C9: FA_FindLastFragment passes probe addresses straight to the flash
Reader without the CheckAddressValidity test used by FA_ReadFragment, and
its binary search range runs to FA_GetMaxFragmentIndex inclusive.  On the
valid configuration outMC (three 4096 byte sectors, one metadata sector,
one sector per fragment, so the sectors left after metadata are an exact
multiple of the fragment sectors) with slots 0 and 1 full, the search
probes address 12288 = baseAddress + memorySize, outside the area —
an address FA_ReadFragment would reject as PARAM. -/
theorem fa_findLastFragment_probes_out_of_area :
    (FA_InitStruct outMC (fun _ => true)).isSome = true ∧
    FA_GetMaxFragmentIndex outArea = 2 ∧
    GetFragmentAddress outArea 2 =
      outArea.memoryConfig.baseAddress + outArea.memoryConfig.memorySize ∧
    GetFragmentAddress outArea 2 ∈ (FA_FindLastFragment outArea).probes ∧
    CheckAddressValidity outArea (GetFragmentAddress outArea 2)
      FRAGMENT_SIZE = false := by
  refine ⟨by decide, by decide, by decide, ?_, by decide⟩
  rw [run_out_bin, show GetFragmentAddress outArea 2 = 12288 from rfl]
  simp

/-! ## Command area (src/fragmentstore/command.c)

Packed struct sizes: sizeof(InstallMemory_t) = 4 + 200 + 4 = 208,
sizeof(HistoryMemory_t) = 204, sizeof(StateMemory_t) = 32.  Flash is a
byte function with the NOR semantics of the spec and imitation_flash:
write ANDs, erase restores the configured erase value.  The injected
Reader can fail, so the functions that begin with a flash read take the
read result as an Option; the flash backed wrappers instantiate it with a
read from the byte state.  Multi byte fields are little endian. -/

def MAGIC_HISTORY_WRITTEN : Nat := 0xA1A1A1A1
def MAGIC_FIRMWARE_WRITTEN : Nat := 0xB2B2B2B2
def MAGIC_FAILED : Nat := 0xEEEEEEEE

def INSTALL_MEMORY_SIZE : Nat := 208
def HISTORY_MEMORY_SIZE : Nat := 204
def STATE_MEMORY_SIZE : Nat := 32

inductive CommandType where
  | none
  | error
  | installFirmware
  | rollback
  deriving DecidableEq, Repr

/-- Numeric values of CommandType_t (command.h). -/
def CommandType.val : CommandType → Nat
  | .none => 0
  | .error => 1
  | .installFirmware => 0xA5A5
  | .rollback => 0xD17D

inductive CommandStatus where
  | none
  | historyWritten
  | firmwareWritten
  | failed
  | count
  deriving DecidableEq, Repr

/-- Numeric value of COMMAND_STATE_FAILED (command.h). -/
def COMMAND_STATE_FAILED_val : Nat := 3

/-- C conversion of an integer to _Bool: nonzero becomes true. -/
def cBool (n : Nat) : Bool := n != 0

/-- GetMagic of command.c. -/
def GetMagic : CommandStatus → Nat
  | .none => 0xFFFFFFFF
  | .historyWritten => MAGIC_HISTORY_WRITTEN
  | .firmwareWritten => MAGIC_FIRMWARE_WRITTEN
  | .failed => MAGIC_FAILED
  | .count => 0xFFFFFFFF

/-- Little endian 32 bit word from four bytes. -/
def u32le (b0 b1 b2 b3 : Nat) : Nat :=
  b0 + (b1 <<< 8) + (b2 <<< 16) + (b3 <<< 24)

/-- The 32 bit word stored at byte offset `off` of a byte list. -/
def wordAt (bytes : List Nat) (off : Nat) : Nat :=
  u32le (bytes.getD off 0) (bytes.getD (off + 1) 0)
    (bytes.getD (off + 2) 0) (bytes.getD (off + 3) 0)

/-- Little endian byte encoding of a 32 bit word. -/
def u32leBytes (w : Nat) : List Nat :=
  [w % 256, w / 2 ^ 8 % 256, w / 2 ^ 16 % 256, w / 2 ^ 24 % 256]

/-- IsEmptyVal of command.c: every byte equals the erase value. -/
def IsEmptyVal (eraseValue : Nat) (buf : List Nat) : Bool :=
  buf.all (· == eraseValue)

/-- Bytes of state slot i inside the 32 byte state record. -/
def slotBytes (mem : List Nat) (i : Nat) : List Nat :=
  (mem.drop (4 * i)).take 4

/-- EntryExists of command.c: scans all eight state words. -/
def EntryExists (mem : List Nat) (magic : Nat) : Bool :=
  (List.range 8).any (fun i => wordAt mem (4 * i) == magic)

structure CAMemoryConfig where
  baseAddress : Nat
  sectorSize : Nat
  memorySize : Nat
  eraseValue : Nat
  deriving Repr

/-- CommandArea_t of command.h; the address and sector fields are the
ones CA_InitStruct computes. -/
structure CommandArea where
  memoryConfig : CAMemoryConfig
  Crc32 : List Nat → Nat
  commandAddress : Nat
  historyAddress : Nat
  stateAddress : Nat
  commandSectors : Nat
  historySectors : Nat
  stateSectors : Nat

/-- Successful branch of CA_InitStruct. -/
def mkCommandArea (mc : CAMemoryConfig) (crc : List Nat → Nat) :
    CommandArea :=
  { memoryConfig := mc,
    Crc32 := crc,
    commandAddress := mc.baseAddress,
    historyAddress := mc.baseAddress +
      GetRequiredSectors mc.sectorSize INSTALL_MEMORY_SIZE * mc.sectorSize,
    stateAddress := mc.baseAddress +
      GetRequiredSectors mc.sectorSize INSTALL_MEMORY_SIZE * mc.sectorSize +
      GetRequiredSectors mc.sectorSize HISTORY_MEMORY_SIZE * mc.sectorSize,
    commandSectors := GetRequiredSectors mc.sectorSize INSTALL_MEMORY_SIZE,
    historySectors := GetRequiredSectors mc.sectorSize HISTORY_MEMORY_SIZE,
    stateSectors := GetRequiredSectors mc.sectorSize STATE_MEMORY_SIZE }

/-- CA_InitStruct of command.c (null checks aside). -/
def CA_InitStruct (mc : CAMemoryConfig) (crc : List Nat → Nat) :
    Option CommandArea :=
  if mc.memorySize = 0 ∨ mc.sectorSize = 0 ∨
      mc.memorySize % mc.sectorSize ≠ 0 then none
  else if mc.memorySize <
      (GetRequiredSectors mc.sectorSize INSTALL_MEMORY_SIZE +
        GetRequiredSectors mc.sectorSize HISTORY_MEMORY_SIZE +
        GetRequiredSectors mc.sectorSize STATE_MEMORY_SIZE) *
        mc.sectorSize then none
  else some (mkCommandArea mc crc)

/-- CA_GetStatus of command.c, parameterised by the result of the state
region read (none models a failing Reader). -/
def CA_GetStatus_core (readRes : Option (List Nat)) : CommandStatus :=
  match readRes with
  | none => .failed
  | some mem =>
    if EntryExists mem MAGIC_FAILED then .failed
    else if EntryExists mem MAGIC_FIRMWARE_WRITTEN then .firmwareWritten
    else if EntryExists mem MAGIC_HISTORY_WRITTEN then .historyWritten
    else .none

/-- What CA_SetStatus decides to do before the Writer is consulted:
either return a value without writing, or write a new state record. -/
inductive SetStatusAction where
  | ret (b : Bool)
  | write (newState : List Nat)
  deriving DecidableEq, Repr

/-- First-empty-slot loop of CA_SetStatus. -/
def firstEmptySlot (eraseValue : Nat) (mem : List Nat) (i : Nat) :
    Option Nat :=
  if i < 8 then
    if IsEmptyVal eraseValue (slotBytes mem i) then some i
    else firstEmptySlot eraseValue mem (i + 1)
  else none
termination_by 8 - i

/-- State record with slot i overwritten by a magic word. -/
def setSlot (mem : List Nat) (i : Nat) (magic : Nat) : List Nat :=
  mem.take (4 * i) ++ u32leBytes magic ++ mem.drop (4 * i + 4)

/-- CA_SetStatus of command.c up to the final Writer call, parameterised
by the state region read result.  A failing read takes the
`return COMMAND_STATE_FAILED;` branch of the C code, an enum constant
converted to bool. -/
def CA_SetStatus_core (eraseValue : Nat) (readRes : Option (List Nat))
    (cmd : CommandStatus) : SetStatusAction :=
  match readRes with
  | none => .ret (cBool COMMAND_STATE_FAILED_val)
  | some mem =>
    if GetMagic cmd = 0xFFFFFFFF then .ret false
    else if EntryExists mem (GetMagic cmd) then .ret true
    else
      match firstEmptySlot eraseValue mem 0 with
      | some i => .write (setSlot mem i (GetMagic cmd))
      | none => .ret false

/-- Value CA_SetStatus returns, given the Writer verdict when a write is
attempted. -/
def CA_SetStatus_ret (a : SetStatusAction) (writerOk : Bool) : Bool :=
  match a with
  | .ret b => b
  | .write _ => writerOk

/-- CA_ReadInstallCommand of command.c, parameterised by the install
region read result.  Returns none where the C code returns false; on
success the decoded command and the metadata bytes exactly as read. -/
def CA_ReadInstallCommand_core (crc : List Nat → Nat) (eraseValue : Nat)
    (readRes : Option (List Nat)) : Option (CommandType × List Nat) :=
  match readRes with
  | none => none
  | some mem =>
    if crc (mem.take (INSTALL_MEMORY_SIZE - 4)) ≠
        wordAt mem (INSTALL_MEMORY_SIZE - 4) then none
    else
      some
        (if IsEmptyVal eraseValue (mem.take 4) then CommandType.none
         else if wordAt mem 0 = CommandType.installFirmware.val then
           CommandType.installFirmware
         else CommandType.error,
         (mem.drop 4).take METADATA_SIZE)

/-! ### Flash byte model (spec flash contract, imitation_flash.c) -/

/-- Flash contents: the byte stored at each address. -/
def Flash : Type := Nat → Nat

/-- Read n bytes starting at addr. -/
def flashRead (f : Flash) (addr n : Nat) : List Nat :=
  (List.range n).map (fun i => f (addr + i))

/-- NOR write: bits can only be cleared, new byte = old AND data. -/
def flashWrite (f : Flash) (addr : Nat) (data : List Nat) : Flash :=
  fun x =>
    if addr ≤ x ∧ x < addr + data.length then
      Nat.land (f x) (data.getD (x - addr) 0)
    else f x

/-- Sector erase: the range returns to the erase value. -/
def flashErase (f : Flash) (addr n eraseValue : Nat) : Flash :=
  fun x => if addr ≤ x ∧ x < addr + n then eraseValue else f x

/-- EraseInstallMemory of command.c over the flash byte model. -/
def EraseInstallMemory (ca : CommandArea) (f : Flash) : Flash :=
  flashErase f ca.commandAddress
    (ca.commandSectors * ca.memoryConfig.sectorSize) ca.memoryConfig.eraseValue

/-- EraseStateMemory of command.c over the flash byte model. -/
def EraseStateMemory (ca : CommandArea) (f : Flash) : Flash :=
  flashErase f ca.stateAddress
    (ca.stateSectors * ca.memoryConfig.sectorSize) ca.memoryConfig.eraseValue

/-- Byte image of the InstallMemory_t record CA_WriteInstallCommand
builds: command word, metadata, then the CRC32 of the preceding bytes. -/
def installMemoryBytes (ca : CommandArea) (cmd : CommandType)
    (md : List Nat) : List Nat :=
  u32leBytes cmd.val ++ md ++
    u32leBytes (ca.Crc32 (u32leBytes cmd.val ++ md))

/-- CA_WriteInstallCommand of command.c over the flash byte model: erase
the install region, erase the state region, then write the record. -/
def CA_WriteInstallCommand (ca : CommandArea) (cmd : CommandType)
    (md : List Nat) (f : Flash) : Flash :=
  flashWrite (EraseStateMemory ca (EraseInstallMemory ca f))
    ca.commandAddress (installMemoryBytes ca cmd md)

/-- CA_GetStatus reading the state region from the flash byte model. -/
def CA_GetStatus_flash (ca : CommandArea) (f : Flash) : CommandStatus :=
  CA_GetStatus_core (some (flashRead f ca.stateAddress STATE_MEMORY_SIZE))

/-- CA_ReadInstallCommand reading the install region from the flash byte
model. -/
def CA_ReadInstallCommand_flash (ca : CommandArea) (f : Flash) :
    Option (CommandType × List Nat) :=
  CA_ReadInstallCommand_core ca.Crc32 ca.memoryConfig.eraseValue
    (some (flashRead f ca.commandAddress INSTALL_MEMORY_SIZE))

def demoCrc : List Nat → Nat := fun l => l.foldl (fun a b => a + b) 0 % 2 ^ 32

def rollbackBody : List Nat :=
  u32leBytes CommandType.rollback.val ++ List.replicate 200 7

def rollbackInstallBytes : List Nat :=
  rollbackBody ++ u32leBytes (demoCrc rollbackBody)

set_option maxRecDepth 8000 in
/-- C2: the claim states that a stored command word equal to ROLLBACK
(0xD17D) is returned as ROLLBACK.  The switch in CA_ReadInstallCommand
only recognises INSTALL_FIRMWARE (0xA5A5); a CRC valid install record
whose command word is 0xD17D decodes to ERROR, although the repository's
own command_test.cpp ("Write rollback command", line 318) requires
ROLLBACK.  All other parts of the claim hold on this input: the read
succeeds and the metadata is returned as read. -/
theorem ca_readInstallCommand_rollback_maps_to_error :
    CA_ReadInstallCommand_core demoCrc 255 (some rollbackInstallBytes) =
      some (CommandType.error, List.replicate 200 7) ∧
    CommandType.error ≠ CommandType.rollback := by
  decide

/-- C10: when the state region read inside CA_SetStatus fails, the code
executes `return COMMAND_STATE_FAILED;` in a bool function: the enum
value 3 converts to true, so the caller observes success, and no state
word is examined or written (the action is not a write, so the state
region is untouched). -/
theorem ca_setStatus_read_failure_reports_success (ev : Nat)
    (cmd : CommandStatus) :
    CA_SetStatus_core ev none cmd = .ret (cBool COMMAND_STATE_FAILED_val) ∧
    cBool COMMAND_STATE_FAILED_val = true ∧
    ∀ mem, CA_SetStatus_core ev none cmd ≠ .write mem := by
  refine ⟨rfl, rfl, ?_⟩
  intro mem h
  simp [CA_SetStatus_core, cBool, COMMAND_STATE_FAILED_val] at h

/-- Counterexample to C6 as stated: the claim promises that set_status
returns false whenever the status has no valid magic, with no proviso on
the read; but when the state region read fails, CA_SetStatus returns
true before the status is even inspected — here with the magicless
status NONE. -/
theorem ca_setStatus_invalid_status_read_failure :
    GetMagic CommandStatus.none = 0xFFFFFFFF ∧
    CA_SetStatus_core 255 none CommandStatus.none = SetStatusAction.ret true := by
  decide

-- C4 counterexample test
def mc4 : CAMemoryConfig :=
  { baseAddress := 0, sectorSize := 256, memorySize := 768, eraseValue := 255 }

def ca4 : CommandArea := mkCommandArea mc4 demoCrc

set_option maxRecDepth 8000 in
/-- Counterexample to C4 as stated: the claim quantifies over every
command type W, but a successful write_install_command(NONE) on an
all-0xFF flash is read back as ERROR, not NONE: the stored word 0 is not
the erased pattern and matches no case of the read switch. -/
theorem ca_writeInstallCommand_none_reads_error :
    CA_ReadInstallCommand_flash ca4
        (CA_WriteInstallCommand ca4 CommandType.none (List.replicate 200 7)
          (fun _ => 255)) =
      some (CommandType.error, List.replicate 200 7) ∧
    CommandType.error ≠ CommandType.none := by
  decide

def statusPriority : CommandStatus → Nat
  | .none => 0
  | .historyWritten => 1
  | .firmwareWritten => 2
  | .failed => 3
  | .count => 0

def maxStatus (a b : CommandStatus) : CommandStatus :=
  if statusPriority a < statusPriority b then b else a

def statusOfWord (w : Nat) : CommandStatus :=
  if w = MAGIC_FAILED then .failed
  else if w = MAGIC_FIRMWARE_WRITTEN then .firmwareWritten
  else if w = MAGIC_HISTORY_WRITTEN then .historyWritten
  else .none

def stateWords (mem : List Nat) : List Nat :=
  (List.range 8).map (fun i => wordAt mem (4 * i))

def specHighestStatus (mem : List Nat) : CommandStatus :=
  (stateWords mem).foldl (fun acc w => maxStatus acc (statusOfWord w)) .none

def scanStatus (ws : List Nat) : CommandStatus :=
  if ws.any (· == MAGIC_FAILED) then .failed
  else if ws.any (· == MAGIC_FIRMWARE_WRITTEN) then .firmwareWritten
  else if ws.any (· == MAGIC_HISTORY_WRITTEN) then .historyWritten
  else .none

lemma maxStatus_assoc (a b c : CommandStatus) :
    maxStatus (maxStatus a b) c = maxStatus a (maxStatus b c) := by
  cases a <;> cases b <;> cases c <;> rfl

lemma scanStatus_cons (w : Nat) (ws : List Nat) :
    scanStatus (w :: ws) = maxStatus (statusOfWord w) (scanStatus ws) := by
  by_cases h1 : w = MAGIC_FAILED
  · subst h1
    simp only [scanStatus, statusOfWord, List.any_cons, beq_self_eq_true,
      Bool.true_or, if_true, beq_iff_eq]
    norm_num [MAGIC_FAILED, MAGIC_FIRMWARE_WRITTEN, MAGIC_HISTORY_WRITTEN]
    split_ifs <;> rfl
  · by_cases h2 : w = MAGIC_FIRMWARE_WRITTEN
    · subst h2
      simp only [scanStatus, statusOfWord, List.any_cons, beq_self_eq_true,
        Bool.true_or, if_true, beq_iff_eq]
      norm_num [MAGIC_FAILED, MAGIC_FIRMWARE_WRITTEN, MAGIC_HISTORY_WRITTEN]
      split_ifs <;> rfl
    · by_cases h3 : w = MAGIC_HISTORY_WRITTEN
      · subst h3
        simp only [scanStatus, statusOfWord, List.any_cons,
          beq_self_eq_true, Bool.true_or, if_true, beq_iff_eq]
        norm_num [MAGIC_FAILED, MAGIC_FIRMWARE_WRITTEN,
          MAGIC_HISTORY_WRITTEN]
        split_ifs <;> rfl
      · have hb1 : (w == MAGIC_FAILED) = false := by simp [h1]
        have hb2 : (w == MAGIC_FIRMWARE_WRITTEN) = false := by simp [h2]
        have hb3 : (w == MAGIC_HISTORY_WRITTEN) = false := by simp [h3]
        simp only [scanStatus, statusOfWord, List.any_cons, hb1, hb2, hb3,
          Bool.false_or, h1, h2, h3, if_false]
        split_ifs <;> rfl

lemma maxStatus_none_scan (ws : List Nat) :
    maxStatus .none (scanStatus ws) = scanStatus ws := by
  unfold scanStatus
  split_ifs <;> rfl

lemma foldl_maxStatus (ws : List Nat) :
    ∀ acc, ws.foldl (fun a w => maxStatus a (statusOfWord w)) acc =
      maxStatus acc (scanStatus ws) := by
  induction ws with
  | nil =>
    intro acc
    simp only [List.foldl_nil, scanStatus, List.any_nil, if_false]
    cases acc <;> rfl
  | cons w ws ih =>
    intro acc
    rw [List.foldl_cons, ih, scanStatus_cons, maxStatus_assoc]

lemma entryExists_eq_any (mem : List Nat) (m : Nat) :
    EntryExists mem m = (stateWords mem).any (· == m) := by
  unfold EntryExists stateWords
  rw [List.any_map]
  rfl

/-- C5: for every initialised CommandArea whose state region read
succeeds, CA_GetStatus scans all eight 32 bit state slots and returns
the highest priority status whose magic word is present, with priority
FAILED > FIRMWARE_WRITTEN > HISTORY_WRITTEN > NONE: the early-return
reverse order scan of the code equals the priority maximum over the
slot words (specHighestStatus, written from the spec). -/
theorem ca_getStatus_returns_highest_priority (mem : List Nat) :
    CA_GetStatus_core (some mem) = specHighestStatus mem := by
  simp only [CA_GetStatus_core, specHighestStatus]
  rw [foldl_maxStatus, maxStatus_none_scan]
  rw [entryExists_eq_any, entryExists_eq_any, entryExists_eq_any]
  rfl

lemma firstEmptySlot_spec (ev : Nat) (mem : List Nat) (j : Nat) (hj : j < 8)
    (hemp : IsEmptyVal ev (slotBytes mem j) = true)
    (hmin : ∀ i < j, IsEmptyVal ev (slotBytes mem i) = false) :
    ∀ d i, j - i ≤ d → i ≤ j →
      firstEmptySlot ev mem i = some j := by
  intro d
  induction d with
  | zero =>
    intro i hd hij
    have hij2 : i = j := by omega
    subst hij2
    rw [firstEmptySlot, if_pos (by omega), if_pos hemp]
  | succ d ih =>
    intro i hd hij
    by_cases hij2 : i = j
    · subst hij2
      rw [firstEmptySlot, if_pos (by omega), if_pos hemp]
    · rw [firstEmptySlot, if_pos (by omega),
        if_neg (by simp [hmin i (by omega)])]
      exact ih (i + 1) (by omega) (by omega)

lemma firstEmptySlot_none (ev : Nat) (mem : List Nat)
    (hfull : ∀ i < 8, IsEmptyVal ev (slotBytes mem i) = false) :
    ∀ d i, 8 - i ≤ d → firstEmptySlot ev mem i = none := by
  intro d
  induction d with
  | zero =>
    intro i hd
    rw [firstEmptySlot, if_neg (by omega)]
  | succ d ih =>
    intro i hd
    by_cases hi : i < 8
    · rw [firstEmptySlot, if_pos hi, if_neg (by simp [hfull i hi])]
      exact ih (i + 1) (by omega)
    · rw [firstEmptySlot, if_neg hi]

/-- C6 (amended): for every initialised CommandArea whose state region
read succeeds, CA_SetStatus is an idempotent append: with a valid magic
already present it returns true without writing; otherwise it writes the
magic into the first slot whose four bytes all equal the erase value and
returns the Writer verdict (false when the flash write fails); and it
returns false for a status with no valid magic and when no slot is
erased.  The read-success proviso is forced: on a failing read the code
returns true even for an invalid status (see the counterexample). -/
theorem ca_setStatus_idempotent_append (ev : Nat) (mem : List Nat)
    (cmd : CommandStatus) :
    (GetMagic cmd ≠ 0xFFFFFFFF → EntryExists mem (GetMagic cmd) = true →
      CA_SetStatus_core ev (some mem) cmd = .ret true) ∧
    (GetMagic cmd ≠ 0xFFFFFFFF → EntryExists mem (GetMagic cmd) = false →
      ∀ j, j < 8 → IsEmptyVal ev (slotBytes mem j) = true →
      (∀ i < j, IsEmptyVal ev (slotBytes mem i) = false) →
      CA_SetStatus_core ev (some mem) cmd =
        .write (setSlot mem j (GetMagic cmd))) ∧
    (GetMagic cmd = 0xFFFFFFFF →
      CA_SetStatus_core ev (some mem) cmd = .ret false) ∧
    (GetMagic cmd ≠ 0xFFFFFFFF → EntryExists mem (GetMagic cmd) = false →
      (∀ i < 8, IsEmptyVal ev (slotBytes mem i) = false) →
      CA_SetStatus_core ev (some mem) cmd = .ret false) ∧
    (∀ newState writerOk,
      CA_SetStatus_ret (SetStatusAction.write newState) writerOk =
        writerOk) := by
  refine ⟨?_, ?_, ?_, ?_, ?_⟩
  · intro hmagic hpresent
    simp only [CA_SetStatus_core, if_neg hmagic, hpresent, if_true]
  · intro hmagic habsent j hj hemp hmin
    simp only [CA_SetStatus_core, if_neg hmagic, habsent,
      Bool.false_eq_true, if_false]
    rw [firstEmptySlot_spec ev mem j hj hemp hmin j 0 (by omega) (by omega)]
  · intro hmagic
    simp only [CA_SetStatus_core, if_pos hmagic]
  · intro hmagic habsent hfull
    simp only [CA_SetStatus_core, if_neg hmagic, habsent,
      Bool.false_eq_true, if_false]
    rw [firstEmptySlot_none ev mem hfull 8 0 (by omega)]
  · intro newState writerOk
    rfl

lemma land_255 (b : Nat) : Nat.land 255 b = b % 256 := by
  have h := Nat.and_pow_two_sub_one_eq_mod b 8
  norm_num at h
  calc Nat.land 255 b = b &&& 255 := Nat.land_comm 255 b
  _ = b % 256 := h

lemma le_requiredSectors_mul (ss n : Nat) (h : 0 < ss) :
    n ≤ GetRequiredSectors ss n * ss := by
  unfold GetRequiredSectors
  have h2 := Nat.div_add_mod (ss + n - 1) ss
  have hr : (ss + n - 1) % ss < ss := Nat.mod_lt _ h
  rw [Nat.mul_comm]
  omega

lemma flashWrite_inside (f : Flash) (a : Nat) (data : List Nat) (x : Nat)
    (h1 : a ≤ x) (h2 : x < a + data.length) :
    flashWrite f a data x = Nat.land (f x) (data.getD (x - a) 0) :=
  if_pos ⟨h1, h2⟩

lemma flashWrite_outside (f : Flash) (a : Nat) (data : List Nat) (x : Nat)
    (h : x < a ∨ a + data.length ≤ x) :
    flashWrite f a data x = f x :=
  if_neg (by omega)

lemma flashErase_inside (f : Flash) (a n ev x : Nat)
    (h1 : a ≤ x) (h2 : x < a + n) :
    flashErase f a n ev x = ev :=
  if_pos ⟨h1, h2⟩

lemma flashErase_outside (f : Flash) (a n ev x : Nat)
    (h : x < a ∨ a + n ≤ x) :
    flashErase f a n ev x = f x :=
  if_neg (by omega)

lemma map_getD_range (l : List Nat) :
    (List.range l.length).map (fun i => l.getD i 0) = l := by
  apply List.ext_getElem
  · simp
  · intro i h1 h2
    simp only [List.getElem_map, List.getElem_range]
    exact List.getD_eq_getElem l 0 h2

lemma flashRead_const (f : Flash) (a n c : Nat)
    (h : ∀ x, a ≤ x → x < a + n → f x = c) :
    flashRead f a n = List.replicate n c := by
  unfold flashRead
  rw [List.map_congr_left (fun i hi =>
    h (a + i) (by omega) (by have := List.mem_range.mp hi; omega))]
  rw [List.map_const', List.length_range]

lemma flashRead_bytes (f : Flash) (a : Nat) (data : List Nat)
    (herased : ∀ x, a ≤ x → x < a + data.length → f x = 255)
    (hb : ∀ b ∈ data, b < 256) :
    flashRead (flashWrite f a data) a data.length = data := by
  unfold flashRead
  have hcong : ∀ i ∈ List.range data.length,
      flashWrite f a data (a + i) = data.getD i 0 := by
    intro i hi
    have hi2 : i < data.length := List.mem_range.mp hi
    rw [flashWrite_inside f a data (a + i) (by omega) (by omega)]
    rw [herased (a + i) (by omega) (by omega)]
    rw [Nat.add_sub_cancel_left, land_255]
    refine Nat.mod_eq_of_lt (hb _ ?_)
    rw [List.getD_eq_getElem data 0 hi2]
    exact List.getElem_mem hi2
  rw [List.map_congr_left hcong]
  exact map_getD_range data

lemma u32le_u32leBytes (w : Nat) :
    u32le (w % 256) (w / 2 ^ 8 % 256) (w / 2 ^ 16 % 256)
      (w / 2 ^ 24 % 256) = w % 2 ^ 32 := by
  unfold u32le
  simp only [Nat.shiftLeft_eq]
  norm_num
  omega

lemma installMemoryBytes_length (ca : CommandArea) (cmd : CommandType)
    (md : List Nat) (hmd : md.length = METADATA_SIZE) :
    (installMemoryBytes ca cmd md).length = INSTALL_MEMORY_SIZE := by
  simp [installMemoryBytes, u32leBytes, hmd, METADATA_SIZE,
    INSTALL_MEMORY_SIZE]

lemma installMemoryBytes_lt (ca : CommandArea) (cmd : CommandType)
    (md : List Nat) (hmdb : ∀ b ∈ md, b < 256) :
    ∀ b ∈ installMemoryBytes ca cmd md, b < 256 := by
  intro b hb
  unfold installMemoryBytes u32leBytes at hb
  simp only [List.mem_append, List.mem_cons, List.not_mem_nil] at hb
  rcases hb with (h | h) | h
  · rcases h with h | h | h | h | h <;> first
      | (subst h; exact Nat.mod_lt _ (by norm_num))
      | exact absurd h (by simp)
  · exact hmdb b h
  · rcases h with h | h | h | h | h <;> first
      | (subst h; exact Nat.mod_lt _ (by norm_num))
      | exact absurd h (by simp)

lemma wordAt_u32leBytes (w : Nat) : wordAt (u32leBytes w) 0 = w % 2 ^ 32 := by
  rw [show wordAt (u32leBytes w) 0 = u32le (w % 256) (w / 2 ^ 8 % 256)
    (w / 2 ^ 16 % 256) (w / 2 ^ 24 % 256) from rfl]
  exact u32le_u32leBytes w

lemma wordAt_append_right (l1 l2 : List Nat) (n : Nat)
    (h : l1.length = n) : wordAt (l1 ++ l2) n = wordAt l2 0 := by
  unfold wordAt
  rw [List.getD_append_right _ _ _ _ (by omega),
    List.getD_append_right _ _ _ _ (by omega),
    List.getD_append_right _ _ _ _ (by omega),
    List.getD_append_right _ _ _ _ (by omega), h]
  have e0 : n - n = 0 := by omega
  have e1 : n + 1 - n = 1 := by omega
  have e2 : n + 2 - n = 2 := by omega
  have e3 : n + 3 - n = 3 := by omega
  rw [e0, e1, e2, e3]

/-- C4 (amended): for every initialised CommandArea with erase value
0xFF, a successful write_install_command(INSTALL_FIRMWARE, md) erases
the install and state sub-regions before writing, so that immediately
afterwards get_status returns NONE and read_install_command succeeds,
returning INSTALL_FIRMWARE and byte-identical metadata.  The
restrictions are forced: for W = NONE the read back command is ERROR
(see the counterexample), and an erase value whose repeated word equals
a status magic would corrupt get_status. -/
theorem ca_writeInstallCommand_roundtrip (mc : CAMemoryConfig) (crc : List Nat → Nat) (md : List Nat)
    (f : Flash)
    (hss : 0 < mc.sectorSize)
    (hev : mc.eraseValue = 255)
    (hmd : md.length = METADATA_SIZE)
    (hmdb : ∀ b ∈ md, b < 256)
    (hcrc : ∀ l, crc l < 2 ^ 32) :
    CA_GetStatus_flash (mkCommandArea mc crc)
        (CA_WriteInstallCommand (mkCommandArea mc crc)
          CommandType.installFirmware md f) = CommandStatus.none ∧
    CA_ReadInstallCommand_flash (mkCommandArea mc crc)
        (CA_WriteInstallCommand (mkCommandArea mc crc)
          CommandType.installFirmware md f) =
      some (CommandType.installFirmware, md) := by
  set ca := mkCommandArea mc crc with hca
  set data := installMemoryBytes ca CommandType.installFirmware md with hdata
  have hlen : data.length = INSTALL_MEMORY_SIZE :=
    installMemoryBytes_length ca _ md hmd
  have hbytes : ∀ b ∈ data, b < 256 := installMemoryBytes_lt ca _ md hmdb
  have hins : INSTALL_MEMORY_SIZE ≤ ca.commandSectors * mc.sectorSize :=
    le_requiredSectors_mul mc.sectorSize INSTALL_MEMORY_SIZE hss
  have hstat : STATE_MEMORY_SIZE ≤ ca.stateSectors * mc.sectorSize :=
    le_requiredSectors_mul mc.sectorSize STATE_MEMORY_SIZE hss
  have hcmdaddr : ca.commandAddress = mc.baseAddress := rfl
  have hev2 : ca.memoryConfig.eraseValue = 255 := hev
  have hstateaddr : ca.stateAddress = mc.baseAddress +
      ca.commandSectors * mc.sectorSize +
      ca.historySectors * mc.sectorSize := rfl
  have hsa_ge : mc.baseAddress + INSTALL_MEMORY_SIZE ≤ ca.stateAddress := by
    rw [hstateaddr]
    have : (0 : Nat) ≤ ca.historySectors * mc.sectorSize := Nat.zero_le _
    omega
  constructor
  · -- state region reads back erased, so status is NONE
    unfold CA_GetStatus_flash
    rw [show flashRead (CA_WriteInstallCommand ca CommandType.installFirmware
        md f) ca.stateAddress STATE_MEMORY_SIZE =
        List.replicate STATE_MEMORY_SIZE 255 from ?_]
    · decide
    · apply flashRead_const
      intro x hx1 hx2
      unfold CA_WriteInstallCommand
      rw [flashWrite_outside _ _ _ _ (Or.inr (by rw [hcmdaddr, ← hdata, hlen]; omega))]
      unfold EraseStateMemory
      rw [flashErase_inside _ _ _ _ _ hx1 (by
        have : STATE_MEMORY_SIZE ≤ ca.stateSectors * ca.memoryConfig.sectorSize := hstat
        omega), hev2]
  · -- install region reads back the record just written
    unfold CA_ReadInstallCommand_flash
    rw [show flashRead (CA_WriteInstallCommand ca CommandType.installFirmware
        md f) ca.commandAddress INSTALL_MEMORY_SIZE = data from ?_]
    swap
    · rw [← hlen]
      unfold CA_WriteInstallCommand
      apply flashRead_bytes
      · intro x hx1 hx2
        rw [hlen] at hx2
        unfold EraseStateMemory
        rw [flashErase_outside _ _ _ _ _ (Or.inl (by rw [hcmdaddr] at hx2; omega))]
        unfold EraseInstallMemory
        rw [flashErase_inside _ _ _ _ _ hx1 (by
          rw [hcmdaddr] at hx1 hx2 ⊢
          have : INSTALL_MEMORY_SIZE ≤ ca.commandSectors * ca.memoryConfig.sectorSize := hins
          omega), hev2]
      · exact hbytes
    · -- decode the record: CRC matches, command word is INSTALL_FIRMWARE
      have hbodylen : (u32leBytes CommandType.installFirmware.val ++
          md).length = 204 := by
        simp [u32leBytes, hmd, METADATA_SIZE]
      have hassoc : data = u32leBytes CommandType.installFirmware.val ++ md
          ++ u32leBytes (crc (u32leBytes CommandType.installFirmware.val ++
            md)) := rfl
      simp only [CA_ReadInstallCommand_core]
      have htake204 : data.take (INSTALL_MEMORY_SIZE - 4) =
          u32leBytes CommandType.installFirmware.val ++ md := by
        rw [hassoc]
        exact List.take_left' hbodylen
      have hword204 : wordAt data (INSTALL_MEMORY_SIZE - 4) =
          crc (u32leBytes CommandType.installFirmware.val ++ md) := by
        rw [hassoc]
        rw [show INSTALL_MEMORY_SIZE - 4 = 204 from rfl]
        rw [wordAt_append_right _ _ 204 hbodylen, wordAt_u32leBytes]
        exact Nat.mod_eq_of_lt (hcrc _)
      rw [htake204, hword204]
      rw [if_neg (by
        show ¬ ca.Crc32 _ ≠ _
        rw [show ca.Crc32 = crc from rfl]
        simp)]
      have htake4 : data.take 4 = u32leBytes
          CommandType.installFirmware.val := by
        rw [hassoc, List.append_assoc]
        exact List.take_left' (by simp [u32leBytes])
      have hword0 : wordAt data 0 = CommandType.installFirmware.val := by
        unfold wordAt
        rw [hassoc, List.append_assoc]
        rw [List.getD_append _ _ _ _ (by simp [u32leBytes]),
          List.getD_append _ _ _ _ (by simp [u32leBytes]),
          List.getD_append _ _ _ _ (by simp [u32leBytes]),
          List.getD_append _ _ _ _ (by simp [u32leBytes])]
        decide
      have hdrop : (data.drop 4).take METADATA_SIZE = md := by
        rw [hassoc, List.append_assoc]
        rw [List.drop_left' (by simp [u32leBytes])]
        exact List.take_left' hmd
      rw [htake4, hword0, hdrop, hev2]
      rw [if_neg (by decide), if_pos rfl]

def mcW : CAMemoryConfig :=
  { baseAddress := 0, sectorSize := 256, memorySize := 768,
    eraseValue := 255 }

set_option maxRecDepth 8000 in
theorem ca_writeInstallCommand_roundtrip_witness :
    (0 < mcW.sectorSize ∧ mcW.eraseValue = 255 ∧
      (List.replicate 200 7).length = METADATA_SIZE ∧
      (∀ b ∈ List.replicate 200 7, b < 256) ∧
      (∀ l, demoCrc l < 2 ^ 32)) ∧
    CA_GetStatus_flash (mkCommandArea mcW demoCrc)
        (CA_WriteInstallCommand (mkCommandArea mcW demoCrc)
          CommandType.installFirmware (List.replicate 200 7)
          (fun _ => 255)) = CommandStatus.none ∧
    CA_ReadInstallCommand_flash (mkCommandArea mcW demoCrc)
        (CA_WriteInstallCommand (mkCommandArea mcW demoCrc)
          CommandType.installFirmware (List.replicate 200 7)
          (fun _ => 255)) =
      some (CommandType.installFirmware, List.replicate 200 7) :=
  ⟨⟨by decide, rfl, by decide, by decide,
    fun l => Nat.mod_lt _ (by norm_num)⟩,
   ca_writeInstallCommand_roundtrip mcW demoCrc (List.replicate 200 7)
     (fun _ => 255) (by decide) rfl (by decide) (by decide)
     (fun l => Nat.mod_lt _ (by norm_num))⟩

def stateW : List Nat :=
  u32leBytes MAGIC_HISTORY_WRITTEN ++ List.replicate 28 255

theorem ca_setStatus_idempotent_append_witness :
    (GetMagic CommandStatus.firmwareWritten ≠ 0xFFFFFFFF ∧
      EntryExists stateW (GetMagic CommandStatus.firmwareWritten) = false ∧
      1 < 8 ∧ IsEmptyVal 255 (slotBytes stateW 1) = true ∧
      (∀ i < 1, IsEmptyVal 255 (slotBytes stateW i) = false)) ∧
    CA_SetStatus_core 255 (some stateW) CommandStatus.firmwareWritten =
      SetStatusAction.write
        (setSlot stateW 1 (GetMagic CommandStatus.firmwareWritten)) :=
  ⟨⟨by decide, by decide, by decide, by decide, by decide⟩,
   (ca_setStatus_idempotent_append 255 stateW
       CommandStatus.firmwareWritten).2.1 (by decide) (by decide) 1
     (by decide) (by decide) (by decide)⟩
